import Mathlib

/-
  Verification of the Iceland Sound Route core against its specification.

  Shallow embedding of the route-mapping, timeline, audio-engine and
  media-controller logic.  Continuous quantities (seconds, kilometres,
  volume levels) are modelled as rationals; JavaScript arrays as lists;
  fallible array accesses as Option.  The haversine distance is
  transcendental, so every definition that consumes it is parametrized by
  the distance function `dd : GeoPoint → GeoPoint → ℚ`; the theorems use
  only the properties of haversine that the code relies on (for the
  counterexamples a concrete computable distance with the same relevant
  properties, `distAbs`, is supplied: like haversine it is nonnegative and
  zero on identical points).
-/

set_option maxHeartbeats 1000000
set_option linter.unusedVariables false

/-- A geographic point `[lat, lng]`. -/
abbrev GeoPoint := ℚ × ℚ

/-- One entry of a section's `audioFiles` configuration list: `{url, duration}`. -/
structure AudioFile where
  url : String
  duration : ℚ
deriving DecidableEq

/-- A section's `mediaPool` configuration: separate video and image url lists. -/
structure MediaPool where
  videos : List String
  images : List String
deriving DecidableEq

/-- One entry of `routeConfig.sections`. -/
structure RouteSection where
  id : String
  name : String
  geoPath : List GeoPoint
  audioFiles : List AudioFile
  mediaPool : MediaPool
deriving DecidableEq

/-- A tagged entry of `mediaPoolCombined`: `{url, type}` with type
`"video"` or `"image"` (`type` is a Lean keyword, hence `mediaType`). -/
structure MediaItem where
  url : String
  mediaType : String
deriving DecidableEq

/-- An audio file after `processConfiguration`: the original fields plus
`index`, absolute `startTime`/`endTime` and `offsetInSection`. -/
structure ProcessedAudioFile where
  url : String
  duration : ℚ
  index : ℕ
  startTime : ℚ
  endTime : ℚ
  offsetInSection : ℚ
deriving DecidableEq

/-- A section after `processConfiguration`: the original fields plus the
cumulative time/distance boundaries, processed audio files and the
combined media pool. -/
structure ProcessedSection where
  id : String
  name : String
  geoPath : List GeoPoint
  mediaPool : MediaPool
  index : ℕ
  duration : ℚ
  startTime : ℚ
  endTime : ℚ
  distance : ℚ
  startDistance : ℚ
  endDistance : ℚ
  audioFiles : List ProcessedAudioFile
  mediaPoolCombined : List MediaItem
deriving DecidableEq

/-- `RouteMapping.calculatePathDistance`: sum of consecutive-point
distances along a path (the source sums `haversineDistance` over the
edges; the distance function is the parameter `dd`). -/
def calculatePathDistance (dd : GeoPoint → GeoPoint → ℚ) : List GeoPoint → ℚ
  | p1 :: p2 :: rest => dd p1 p2 + calculatePathDistance dd (p2 :: rest)
  | _ => 0

/-- `section.audioFiles.reduce((sum, file) => sum + file.duration, 0)`. -/
def sectionDuration (s : RouteSection) : ℚ :=
  (s.audioFiles.map (fun f => f.duration)).sum

/-- The `mediaPoolCombined` built in `processConfiguration`: tagged videos
followed by tagged images. -/
def combinePool (mp : MediaPool) : List MediaItem :=
  mp.videos.map (fun u => ⟨u, "video"⟩) ++ mp.images.map (fun u => ⟨u, "image"⟩)

/-- The inner `section.audioFiles.map` of `processConfiguration`:
`cumulativeTime` is the section's start, `off` the running
`audioFileOffset`, `i` the running file index. -/
def processAudioFiles (cumulativeTime : ℚ) : ℚ → ℕ → List AudioFile → List ProcessedAudioFile
  | _, _, [] => []
  | off, i, f :: rest =>
    { url := f.url, duration := f.duration, index := i,
      startTime := cumulativeTime + off, endTime := cumulativeTime + off + f.duration,
      offsetInSection := off }
      :: processAudioFiles cumulativeTime (off + f.duration) (i + 1) rest

/-- The `sections.map` of `RouteMapping.processConfiguration`, carrying
the `cumulativeTime`/`cumulativeDistance` accumulators and section index. -/
def processSections (dd : GeoPoint → GeoPoint → ℚ) : ℚ → ℚ → ℕ → List RouteSection → List ProcessedSection
  | _, _, _, [] => []
  | ct, cd, i, s :: rest =>
    { id := s.id, name := s.name, geoPath := s.geoPath, mediaPool := s.mediaPool,
      index := i, duration := sectionDuration s,
      startTime := ct, endTime := ct + sectionDuration s,
      distance := calculatePathDistance dd s.geoPath,
      startDistance := cd, endDistance := cd + calculatePathDistance dd s.geoPath,
      audioFiles := processAudioFiles ct 0 0 s.audioFiles,
      mediaPoolCombined := combinePool s.mediaPool }
      :: processSections dd (ct + sectionDuration s) (cd + calculatePathDistance dd s.geoPath) (i + 1) rest

/-- The state a `RouteMapping` instance holds after `processConfiguration`. -/
structure RouteMappingState where
  processedSections : List ProcessedSection
  totalDuration : ℚ
  totalDistance : ℚ
deriving DecidableEq

/-- `RouteMapping.processConfiguration`: processes the configured sections
and records the final values of the two accumulators. -/
def processConfiguration (dd : GeoPoint → GeoPoint → ℚ) (sections : List RouteSection) : RouteMappingState :=
  { processedSections := processSections dd 0 0 0 sections,
    totalDuration := sections.foldl (fun ct s => ct + sectionDuration s) 0,
    totalDistance := sections.foldl (fun cd s => cd + calculatePathDistance dd s.geoPath) 0 }

/-- The predicate of `findSectionAtPosition`:
`position >= section.startTime && position < section.endTime`. -/
def sectionContains (position : ℚ) (s : ProcessedSection) : Bool :=
  decide (position ≥ s.startTime) && decide (position < s.endTime)

/-- `RouteMapping.findSectionAtPosition`: first (and, by the partition
invariant, only) section whose half-open range contains the position. -/
def findSectionAtPosition (rm : RouteMappingState) (position : ℚ) : Option ProcessedSection :=
  rm.processedSections.find? (sectionContains position)

/-- The predicate of `findAudioFileAtPosition`:
`position >= file.startTime && position < file.endTime`. -/
def fileContains (position : ℚ) (f : ProcessedAudioFile) : Bool :=
  decide (position ≥ f.startTime) && decide (position < f.endTime)

/-- `RouteMapping.findAudioFileAtPosition(position, section = null)`. -/
def findAudioFileAtPosition (rm : RouteMappingState) (position : ℚ) : Option ProcessedSection → Option ProcessedAudioFile
  | none => (findSectionAtPosition rm position).bind fun s => s.audioFiles.find? (fileContains position)
  | some s => s.audioFiles.find? (fileContains position)

/-- The `section` sub-object of the context returned by
`getContextAtPosition`: note it carries no `audioFiles` field. -/
structure SectionContext where
  id : String
  index : ℕ
  name : String
  duration : ℚ
  progressInSection : ℚ
deriving DecidableEq

/-- The `audio` sub-object of the context (`audioInfo` below, to keep
field names distinct from the engine's). -/
structure AudioFileContext where
  file : ProcessedAudioFile
  offsetInFile : ℚ
  shouldBePlaying : Bool
deriving DecidableEq

/-- The `geo` sub-object of the context. -/
structure GeoContext where
  latitude : ℚ
  longitude : ℚ
  path : List GeoPoint
deriving DecidableEq

/-- The context object returned by `RouteMapping.getContextAtPosition`. -/
structure Context where
  position : ℚ
  overallProgress : ℚ
  sectionInfo : SectionContext
  audioInfo : AudioFileContext
  geo : GeoContext
  mediaPool : List MediaItem
  mediaPoolVideos : List String
  mediaPoolImages : List String
deriving DecidableEq

/-- The cumulative `distances` table of `interpolateGeoPosition`
(`[0]` followed by running totals, one per edge); `acc` is the running
`totalDist`. -/
def pathDistancesAux (dd : GeoPoint → GeoPoint → ℚ) (acc : ℚ) : List GeoPoint → List ℚ
  | p1 :: p2 :: rest => (acc + dd p1 p2) :: pathDistancesAux dd (acc + dd p1 p2) (p2 :: rest)
  | _ => []

/-- The full `distances` array of `interpolateGeoPosition`. -/
def pathDistances (dd : GeoPoint → GeoPoint → ℚ) (path : List GeoPoint) : List ℚ :=
  0 :: pathDistancesAux dd 0 path

/-- The bracket-search loop of `interpolateGeoPosition`: first index `i`
with `distances[i] <= targetDist < distances[i+1]`, scanning adjacent
pairs; `none` when no bracket matches (the source then keeps its
initialization `segmentIndex = 0`). -/
def findBracketAux (targetDist : ℚ) : List ℚ → ℕ → Option ℕ
  | a :: b :: rest, i =>
    if targetDist ≥ a ∧ targetDist < b then some i
    else findBracketAux targetDist (b :: rest) (i + 1)
  | _, _ => none

/-- `RouteMapping.interpolateGeoPosition`.  Out-of-range list accesses,
which the claims never exercise (configured paths have at least two
points), are rendered with default `(0, 0)` / `0` where JavaScript would
yield `undefined`. -/
def interpolateGeoPosition (dd : GeoPoint → GeoPoint → ℚ) (path : List GeoPoint) (progress : ℚ) : GeoPoint :=
  if progress ≤ 0 then path.headD (0, 0)
  else if progress ≥ 1 then path.getLastD (0, 0)
  else
    let distances := pathDistances dd path
    let totalDist := distances.getLastD 0
    let targetDist := progress * totalDist
    let segmentIndex := (findBracketAux targetDist distances 0).getD 0
    let segmentStart := distances.getD segmentIndex 0
    let segmentEnd := distances.getD (segmentIndex + 1) 0
    let segmentProgress := (targetDist - segmentStart) / (segmentEnd - segmentStart)
    let p1 := path.getD segmentIndex (0, 0)
    let p2 := path.getD (segmentIndex + 1) (0, 0)
    (p1.1 + (p2.1 - p1.1) * segmentProgress, p1.2 + (p2.2 - p1.2) * segmentProgress)

/-- The denominator `segmentEnd - segmentStart` that
`interpolateGeoPosition` divides by in its `0 < progress < 1` branch
(in JavaScript a zero here produces `NaN` coordinates). -/
def interpDenominator (dd : GeoPoint → GeoPoint → ℚ) (path : List GeoPoint) (progress : ℚ) : ℚ :=
  let distances := pathDistances dd path
  let targetDist := progress * distances.getLastD 0
  let segmentIndex := (findBracketAux targetDist distances 0).getD 0
  distances.getD (segmentIndex + 1) 0 - distances.getD segmentIndex 0

/-- `RouteMapping.getContextAtPosition`: pure read of the processed
state; returns `none` (JavaScript `null`) when no section or no audio
file contains the position. -/
def getContextAtPosition (dd : GeoPoint → GeoPoint → ℚ) (rm : RouteMappingState) (position : ℚ) : Option Context :=
  match findSectionAtPosition rm position with
  | none => none
  | some s =>
    match findAudioFileAtPosition rm position (some s) with
    | none => none
    | some file =>
      let offsetInFile := position - file.startTime
      let positionInSection := position - s.startTime
      let progressInSection := positionInSection / s.duration
      let geoPosition := interpolateGeoPosition dd s.geoPath progressInSection
      some
        { position := position,
          overallProgress := position / rm.totalDuration,
          sectionInfo := ⟨s.id, s.index, s.name, s.duration, progressInSection⟩,
          audioInfo := ⟨file, offsetInFile, true⟩,
          geo := ⟨geoPosition.1, geoPosition.2, s.geoPath⟩,
          mediaPool := s.mediaPoolCombined,
          mediaPoolVideos := s.mediaPool.videos,
          mediaPoolImages := s.mediaPool.images }

/-- `RouteMapping.getSectionByIndex` (array access, `undefined` → `none`). -/
def getSectionByIndex (rm : RouteMappingState) (index : ℕ) : Option ProcessedSection :=
  rm.processedSections[index]?

/-- `RouteMapping.getAllSections`. -/
def getAllSections (rm : RouteMappingState) : List ProcessedSection :=
  rm.processedSections

/-- The guard `currentFileIndex < context.section.audioFiles?.length - 1`
of `AudioEngine.preloadNextFile`.  The `section` sub-object built by
`getContextAtPosition` (see `SectionContext`) carries no `audioFiles`
field, so the optional chain yields `undefined`, `undefined - 1` is
`NaN`, and a `<` comparison against `NaN` is `false` — for every context. -/
def preloadSameSectionGuard (_ctx : Context) : Bool :=
  false

/-- `AudioEngine.preloadNextFile`, restricted to its pure selection of the
preload target (the subsequent cache check and element creation do not
affect which file is chosen). -/
def preloadNextFile (dd : GeoPoint → GeoPoint → ℚ) (rm : RouteMappingState) (currentPosition : ℚ) : Option ProcessedAudioFile :=
  match getContextAtPosition dd rm currentPosition with
  | none => none
  | some ctx =>
    let currentFileIndex := ctx.audioInfo.file.index
    let currentSectionIndex := ctx.sectionInfo.index
    if preloadSameSectionGuard ctx then
      -- `section.audioFiles[currentFileIndex + 1]` on the full section
      (getSectionByIndex rm currentSectionIndex).bind fun s => s.audioFiles[currentFileIndex + 1]?
    else
      match getSectionByIndex rm (currentSectionIndex + 1) with
      | some nextSection => nextSection.audioFiles[0]?
      | none => (getSectionByIndex rm 0).bind fun firstSection => firstSection.audioFiles[0]?

/-- The slice of `AudioEngine` state the sync and volume logic reads:
`currentAudio !== null` as `currentAudioLoaded`, the decoder position
`currentAudio.currentTime`, `currentFileInfo?.url`, `isPlaying`, and the
master gain value (`none` when `masterGainNode` is not yet created). -/
structure AudioEngineState where
  currentAudioLoaded : Bool
  currentTime : ℚ
  currentFileUrl : Option String
  isPlaying : Bool
  masterGain : Option ℚ
deriving DecidableEq

/-- `this.syncThreshold = 0.5`. -/
def syncThreshold : ℚ := 1 / 2

/-- The three things a sync pass can do. -/
inductive SyncAction where
  | noAction : SyncAction
  | seek : ℚ → SyncAction
  | reload : SyncAction
deriving DecidableEq

/-- `AudioEngine.syncToPosition`, as the action it takes: early return
when nothing is playing or the mapper yields no context; full reload via
`startAtPosition` on resource-identity mismatch; a seek of the current
decoder when the offset drift exceeds `syncThreshold`; otherwise nothing. -/
def syncToPosition (dd : GeoPoint → GeoPoint → ℚ) (rm : RouteMappingState) (st : AudioEngineState) (expectedPosition : ℚ) : SyncAction :=
  if !st.currentAudioLoaded || !st.isPlaying then SyncAction.noAction
  else
    match getContextAtPosition dd rm expectedPosition with
    | none => SyncAction.noAction
    | some ctx =>
      if some ctx.audioInfo.file.url ≠ st.currentFileUrl then SyncAction.reload
      else
        let expectedOffset := ctx.audioInfo.offsetInFile
        let actualOffset := st.currentTime
        let drift := |expectedOffset - actualOffset|
        if drift > syncThreshold then SyncAction.seek expectedOffset
        else SyncAction.noAction

/-- `AudioEngine.setVolume`: writes
`Math.max(0, Math.min(1, volume))` to the master gain when the gain node
exists, otherwise does nothing. -/
def setVolume (st : AudioEngineState) (volume : ℚ) : AudioEngineState :=
  match st.masterGain with
  | none => st
  | some _ => { st with masterGain := some (max 0 (min 1 volume)) }

/-- The `TimelineEngine` state: total cycle duration, the reference
instant `startTime` (milliseconds, `performance.now()` clock), the
position at that instant, and the playing flag. -/
structure TimelineEngine where
  totalDuration : ℚ
  startTime : ℚ
  startPosition : ℚ
  isPlaying : Bool
deriving DecidableEq

/-- JavaScript `%` on numbers, for a nonnegative dividend (there
`a % b = a - b * trunc(a / b)`, and for `0 ≤ a`, `0 < b` the truncation
is the floor); every `%` in the timeline has that shape. -/
def jsMod (a b : ℚ) : ℚ :=
  a - b * ⌊a / b⌋

/-- `TimelineEngine.calculatePositionFromTimeOfDay`, with the wall clock
passed explicitly as seconds since midnight. -/
def calculatePositionFromTimeOfDay (e : TimelineEngine) (secondsSinceMidnight : ℚ) : ℚ :=
  jsMod secondsSinceMidnight e.totalDuration

/-- `TimelineEngine.getCurrentPosition`, with `performance.now()` passed
explicitly (milliseconds). -/
def getCurrentPosition (e : TimelineEngine) (nowMs : ℚ) : ℚ :=
  if !e.isPlaying then e.startPosition
  else jsMod (e.startPosition + (nowMs - e.startTime) / 1000) e.totalDuration

/-- `TimelineEngine.resync`: re-derive `startPosition` from time-of-day
and reset the reference instant. -/
def resync (e : TimelineEngine) (nowMs secondsSinceMidnight : ℚ) : TimelineEngine :=
  { e with startPosition := calculatePositionFromTimeOfDay e secondsSinceMidnight,
           startTime := nowMs }

/-- One pass of `TimelineEngine.checkSync` (the 5-second rate limiting
via `lastSyncCheck` only schedules passes; a pass compares the two
positions with plain `Math.abs` and resyncs above 2 seconds).  Returns
the new engine state and whether `resync()` was called. -/
def checkSync (e : TimelineEngine) (nowMs secondsSinceMidnight : ℚ) : TimelineEngine × Bool :=
  let expectedPosition := calculatePositionFromTimeOfDay e secondsSinceMidnight
  let currentPosition := getCurrentPosition e nowMs
  let drift := |expectedPosition - currentPosition|
  if drift > 2 then (resync e nowMs secondsSinceMidnight, true) else (e, false)

/-- Modelled from the spec: the circular (shortest-arc) distance between
two positions on a cycle of length `total`, the metric the drift-guard
claim says `checkSync` uses. -/
def circularDistance (total a b : ℚ) : ℚ :=
  min |a - b| (total - |a - b|)

/-- One section's draw state in `MediaController.sectionStates`. -/
structure SectionState where
  available : List MediaItem
  shown : List MediaItem
deriving DecidableEq

/-- The destructuring swap `[array[i], array[j]] = [array[j], array[i]]`
of `shuffleArray` (a no-op on out-of-range indices, which the loop never
produces). -/
def listSwap {α : Type} (l : List α) (i j : ℕ) : List α :=
  match l[i]?, l[j]? with
  | some x, some y => (l.set i y).set j x
  | _, _ => l

/-- The loop of `MediaController.shuffleArray` (Fisher–Yates): `i` runs
from `length - 1` down to `1`, swapping `i` with
`j = Math.floor(Math.random() * (i + 1))`; the random draw is modelled by
`sr i % (i + 1)`, which ranges over exactly the indices `0..i`. -/
def shuffleGo {α : Type} (sr : ℕ → ℕ) : List α → ℕ → List α
  | l, 0 => l
  | l, i + 1 => shuffleGo sr (listSwap l (i + 1) (sr (i + 1) % (i + 1 + 1))) i

/-- `MediaController.shuffleArray` (in-place in the source; functional here). -/
def shuffleArray {α : Type} (sr : ℕ → ℕ) (l : List α) : List α :=
  shuffleGo sr l (l.length - 1)

/-- `MediaController.initializeSectionStates`: one entry per section of
`getAllSections`, keyed by section id, with `available` a copy of
`mediaPoolCombined` and `shown` empty (no shuffle happens here). -/
def initializeSectionStates (sections : List ProcessedSection) : List (String × SectionState) :=
  sections.map fun s => (s.id, ⟨s.mediaPoolCombined, []⟩)

/-- `MediaController.pickNextMedia` on one section's state.  `r` models
the draw `Math.floor(Math.random() * available.length)` (as `r % length`,
which ranges over exactly the valid indices); `sr` feeds the reshuffle.
When both lists are empty (a configuration no claim exercises; JavaScript
would push `undefined` into `shown`) the draw yields `none` and the lists
are left as they are. -/
def pickNextMedia (r : ℕ) (sr : ℕ → ℕ) (st : SectionState) : Option MediaItem × SectionState :=
  let st1 : SectionState :=
    if st.available.length = 0 then ⟨shuffleArray sr st.shown, []⟩ else st
  let randomIndex := r % st1.available.length
  match st1.available[randomIndex]? with
  | none => (none, st1)
  | some item => (some item, ⟨st1.available.eraseIdx randomIndex, st1.shown ++ [item]⟩)

/-- A sequence of `pickNextMedia` calls on one section, threading the
state and collecting the drawn items; each call consumes one entry
`(r, sr)` of randomness. -/
def runDraws : SectionState → List (ℕ × (ℕ → ℕ)) → List (Option MediaItem) × SectionState
  | st, [] => ([], st)
  | st, (r, sr) :: rest =>
    let pick := pickNextMedia r sr st
    let recur := runDraws pick.2 rest
    (pick.1 :: recur.1, recur.2)

/-- Auxiliary interval table: the list of half-open time ranges spanned
by consecutive durations starting at `t`; `processConfiguration` assigns
exactly these ranges (see `processSections_times`). -/
def timeBlocks (t : ℚ) : List ℚ → List (ℚ × ℚ)
  | [] => []
  | d :: ds => (t, t + d) :: timeBlocks (t + d) ds

/-- Range membership for `timeBlocks` entries, the common shape of
`sectionContains` and `fileContains`. -/
def blockContains (p : ℚ) (b : ℚ × ℚ) : Bool :=
  decide (p ≥ b.1) && decide (p < b.2)

/-- A concrete computable stand-in for `haversineDistance` in the
counterexamples and witnesses: like haversine it is nonnegative and zero
exactly between identical points (the claims rely on no further property
of the distance). -/
def distAbs (p q : GeoPoint) : ℚ :=
  |p.1 - q.1| + |p.2 - q.2|

/-- The two-section scenario of the specification: total duration 3600 s,
two 1800 s sections of one audio file each. -/
def cfg2 : List RouteSection :=
  [{ id := "s1", name := "First Half", geoPath := [(0, 0), (0, 1)],
     audioFiles := [⟨"first.mp3", 1800⟩], mediaPool := ⟨["v1.mp4"], ["i1.jpg"]⟩ },
   { id := "s2", name := "Second Half", geoPath := [(0, 1), (0, 2)],
     audioFiles := [⟨"second.mp3", 1800⟩], mediaPool := ⟨["v2.mp4"], ["i2.jpg"]⟩ }]

/-- The processed state of `cfg2`. -/
def rmC2 : RouteMappingState :=
  processConfiguration distAbs cfg2

/-- A one-section configuration with two audio files, for the preload
claim: at position 0 the active file `a.mp3` is not the last of its
section. -/
def cfgC4 : List RouteSection :=
  [{ id := "s1", name := "Only Section", geoPath := [(0, 0), (1, 1)],
     audioFiles := [⟨"a.mp3", 10⟩, ⟨"b.mp3", 10⟩], mediaPool := ⟨["v.mp4"], ["i.jpg"]⟩ }]

/-- The processed state of `cfgC4`. -/
def rmC4 : RouteMappingState :=
  processConfiguration distAbs cfgC4

/-- An engine state playing `a.mp3` with the decoder at 1 s, for the sync
witness. -/
def engC5 : AudioEngineState :=
  { currentAudioLoaded := true, currentTime := 1, currentFileUrl := some ("a.mp3"),
    isPlaying := true, masterGain := some 1 }

/-- A timeline just past the loop start while the wall clock sits just
before the loop end: locally-advanced position 0.1 s, wall-derived
position 3599.9 s. -/
def engC3 : TimelineEngine :=
  { totalDuration := 3600, startTime := 0, startPosition := 1 / 10, isPlaying := true }

/-- A two-entry media pool for the selector claims. -/
def poolW : List MediaItem :=
  [⟨"v1.mp4", "video"⟩, ⟨"i1.jpg", "image"⟩]

/-- Two draws of randomness, always choosing index 0 and the identity
permutation... enough to drain `poolW` once. -/
def drawsW : List (ℕ × (ℕ → ℕ)) :=
  [(0, fun _ => 0), (0, fun _ => 0)]

/-- The context `rmC4` yields at position 0 (spelled out for the sync
witness). -/
def ctxC4 : Context :=
  { position := 0, overallProgress := 0,
    sectionInfo := ⟨"s1", 0, "Only Section", 20, 0⟩,
    audioInfo := ⟨⟨"a.mp3", 10, 0, 0, 10, 0⟩, 0, true⟩,
    geo := ⟨0, 0, [(0, 0), (1, 1)]⟩,
    mediaPool := [⟨"v.mp4", "video"⟩, ⟨"i.jpg", "image"⟩],
    mediaPoolVideos := ["v.mp4"], mediaPoolImages := ["i.jpg"] }

/-- An explicit processed section whose combined pool is `poolW`, for the
selector-initialization counterexample. -/
def secC7 : ProcessedSection :=
  { id := "s1", name := "Only Section", geoPath := [(0, 0), (1, 1)],
    mediaPool := ⟨["v1.mp4"], ["i1.jpg"]⟩,
    index := 0, duration := 20, startTime := 0, endTime := 20,
    distance := 2, startDistance := 0, endDistance := 2,
    audioFiles := [⟨"a.mp3", 20, 0, 0, 20, 0⟩],
    mediaPoolCombined := [⟨"v1.mp4", "video"⟩, ⟨"i1.jpg", "image"⟩] }

theorem blockContains_iff (p : ℚ) (b : ℚ × ℚ) :
    blockContains p b = true ↔ b.1 ≤ p ∧ p < b.2 := by
  simp [blockContains, ge_iff_le, and_comm]

theorem blockContains_false (p : ℚ) (b : ℚ × ℚ) (h : ¬ (b.1 ≤ p ∧ p < b.2)) :
    blockContains p b = false := by
  rw [← Bool.not_eq_true, blockContains_iff]
  exact h

theorem timeBlocks_length (t : ℚ) : ∀ (ds : List ℚ), (timeBlocks t ds).length = ds.length := by
  intro ds
  induction ds generalizing t with
  | nil => rfl
  | cons d ds ih => simp [timeBlocks, ih]

theorem timeBlocks_head_fst (t : ℚ) (ds : List ℚ) (h : ds ≠ []) :
    ((timeBlocks t ds).map Prod.fst).head? = some t := by
  cases ds with
  | nil => exact absurd rfl h
  | cons d ds => rfl

theorem timeBlocks_getLast_snd (t : ℚ) (ds : List ℚ) (h : ds ≠ []) :
    ((timeBlocks t ds).map Prod.snd).getLast? = some (t + ds.sum) := by
  induction ds generalizing t with
  | nil => exact absurd rfl h
  | cons d ds ih =>
    cases ds with
    | nil => simp [timeBlocks]
    | cons d2 rest =>
      rw [timeBlocks, List.map_cons]
      have hx : List.map Prod.snd (timeBlocks (t + d) (d2 :: rest)) =
          (t + d + d2) :: List.map Prod.snd (timeBlocks (t + d + d2) rest) := rfl
      rw [hx, List.getLast?_cons_cons, ← hx, ih (t + d) (by simp)]
      congr 1
      simp only [List.sum_cons]
      ring

theorem timeBlocks_adjacent : ∀ (ds : List ℚ) (t : ℚ) (i : ℕ), i + 1 < ds.length →
    ((timeBlocks t ds).map Prod.snd)[i]? = ((timeBlocks t ds).map Prod.fst)[i + 1]? := by
  intro ds
  induction ds with
  | nil => intro t i h; simp at h
  | cons d ds ih =>
    intro t i h
    cases i with
    | zero =>
      cases ds with
      | nil => simp at h
      | cons d2 rest => simp [timeBlocks]
    | succ n =>
      rw [timeBlocks, List.map_cons, List.map_cons, List.getElem?_cons_succ,
        List.getElem?_cons_succ]
      exact ih (t + d) n (by simpa using h)

theorem timeBlocks_countP_zero (p : ℚ) : ∀ (ds : List ℚ) (t : ℚ), (∀ d ∈ ds, 0 ≤ d) →
    (p < t ∨ t + ds.sum ≤ p) → (timeBlocks t ds).countP (blockContains p) = 0 := by
  intro ds
  induction ds with
  | nil => intro t _ _; rfl
  | cons d ds ih =>
    intro t hnn hout
    have hd : 0 ≤ d := hnn d (by simp)
    have hds : ∀ x ∈ ds, 0 ≤ x := fun x hx => hnn x (by simp [hx])
    have hsum : 0 ≤ ds.sum := List.sum_nonneg hds
    rw [List.sum_cons] at hout
    rw [timeBlocks, List.countP_cons]
    rcases hout with hlt | hge
    · have hc : blockContains p (t, t + d) = false :=
        blockContains_false p (t, t + d) (by
          intro hc
          have : t ≤ p := hc.1
          linarith)
      rw [ih (t + d) hds (Or.inl (by linarith)), hc]
      simp
    · have hc : blockContains p (t, t + d) = false :=
        blockContains_false p (t, t + d) (by
          intro hc
          have : p < t + d := hc.2
          linarith)
      rw [ih (t + d) hds (Or.inr (by linarith)), hc]
      simp

theorem timeBlocks_countP_one (p : ℚ) : ∀ (ds : List ℚ) (t : ℚ), (∀ d ∈ ds, 0 ≤ d) →
    t ≤ p → p < t + ds.sum → (timeBlocks t ds).countP (blockContains p) = 1 := by
  intro ds
  induction ds with
  | nil =>
    intro t _ h1 h2
    rw [List.sum_nil, add_zero] at h2
    linarith
  | cons d ds ih =>
    intro t hnn h1 h2
    have hds : ∀ x ∈ ds, 0 ≤ x := fun x hx => hnn x (by simp [hx])
    rw [List.sum_cons] at h2
    rw [timeBlocks, List.countP_cons]
    rcases lt_or_le p (t + d) with hlt | hge
    · have hc : blockContains p (t, t + d) = true := (blockContains_iff p (t, t + d)).2 ⟨h1, hlt⟩
      rw [timeBlocks_countP_zero p ds (t + d) hds (Or.inl hlt), hc]
      simp
    · have hc : blockContains p (t, t + d) = false :=
        blockContains_false p (t, t + d) (by
          intro hc
          have : p < t + d := hc.2
          linarith)
      rw [ih (t + d) hds hge (by linarith), hc]
      simp

theorem processSections_times (dd : GeoPoint → GeoPoint → ℚ) :
    ∀ (ss : List RouteSection) (ct cd : ℚ) (i : ℕ),
    (processSections dd ct cd i ss).map (fun s => (s.startTime, s.endTime)) =
      timeBlocks ct (ss.map sectionDuration) := by
  intro ss
  induction ss with
  | nil => intro ct cd i; rfl
  | cons s ss ih =>
    intro ct cd i
    simp only [processSections, timeBlocks, List.map_cons, ih]

theorem processAudioFiles_times :
    ∀ (fs : List AudioFile) (ct off : ℚ) (i : ℕ),
    (processAudioFiles ct off i fs).map (fun f => (f.startTime, f.endTime)) =
      timeBlocks (ct + off) (fs.map (fun f => f.duration)) := by
  intro fs
  induction fs with
  | nil => intro ct off i; rfl
  | cons f fs ih =>
    intro ct off i
    simp only [processAudioFiles, timeBlocks, List.map_cons]
    rw [ih ct (off + f.duration) (i + 1), add_assoc]

theorem foldl_add_eq_sum {α : Type} (f : α → ℚ) :
    ∀ (l : List α) (a : ℚ), l.foldl (fun acc s => acc + f s) a = a + (l.map f).sum := by
  intro l
  induction l with
  | nil => intro a; simp
  | cons x l ih => intro a; simp [ih, add_assoc]

theorem totalDuration_eq_sum (dd : GeoPoint → GeoPoint → ℚ) (cfg : List RouteSection) :
    (processConfiguration dd cfg).totalDuration = (cfg.map sectionDuration).sum := by
  show cfg.foldl (fun ct s => ct + sectionDuration s) 0 = (cfg.map sectionDuration).sum
  rw [foldl_add_eq_sum sectionDuration cfg 0, zero_add]

theorem sum_sectionDuration_flat : ∀ (cfg : List RouteSection),
    (cfg.map sectionDuration).sum =
      ((cfg.flatMap (fun s => s.audioFiles)).map (fun f => f.duration)).sum := by
  intro cfg
  induction cfg with
  | nil => rfl
  | cons s cfg ih => simp [sectionDuration, ih]

theorem mem_processSections (dd : GeoPoint → GeoPoint → ℚ) :
    ∀ (ss : List RouteSection) (ct cd : ℚ) (i : ℕ) (s : ProcessedSection),
    s ∈ processSections dd ct cd i ss →
    ∃ s0, s0 ∈ ss ∧ s.audioFiles = processAudioFiles s.startTime 0 0 s0.audioFiles ∧
      s.endTime = s.startTime + sectionDuration s0 := by
  intro ss
  induction ss with
  | nil => intro ct cd i s h; simp [processSections] at h
  | cons s0 ss ih =>
    intro ct cd i s h
    rw [processSections, List.mem_cons] at h
    rcases h with h | h
    · exact ⟨s0, by simp, by rw [h], by rw [h]⟩
    · obtain ⟨s1, hs1, h1, h2⟩ := ih _ _ _ s h
      exact ⟨s1, by simp [hs1], h1, h2⟩

theorem find?_exists_of_countP_pos {α : Type} (p : α → Bool) (l : List α) (h : 0 < l.countP p) :
    ∃ x, l.find? p = some x ∧ p x = true ∧ x ∈ l := by
  have hex : ∃ a ∈ l, p a := List.countP_pos_iff.1 h
  have hs : (l.find? p).isSome := List.find?_isSome.2 hex
  obtain ⟨x, hx⟩ := Option.isSome_iff_exists.1 hs
  exact ⟨x, hx, List.find?_some hx, List.mem_of_find?_eq_some hx⟩

theorem sectionContains_iff (p : ℚ) (s : ProcessedSection) :
    sectionContains p s = true ↔ s.startTime ≤ p ∧ p < s.endTime := by
  simp [sectionContains, ge_iff_le, and_comm]

theorem fileContains_iff (p : ℚ) (f : ProcessedAudioFile) :
    fileContains p f = true ↔ f.startTime ≤ p ∧ p < f.endTime := by
  simp [fileContains, ge_iff_le, and_comm]

theorem durations_nonneg (cfg : List RouteSection)
    (hdur : ∀ s ∈ cfg, ∀ f ∈ s.audioFiles, 0 < f.duration) :
    ∀ d ∈ cfg.map sectionDuration, 0 ≤ d := by
  intro d hd
  rw [List.mem_map] at hd
  obtain ⟨s, hs, rfl⟩ := hd
  refine List.sum_nonneg ?_
  intro x hx
  rw [List.mem_map] at hx
  obtain ⟨f, hf, rfl⟩ := hx
  exact le_of_lt (hdur s hs f hf)

/-- C1: for every route configuration in which each segment has at least
one audio resource of positive duration, the segments produced by
`processConfiguration` partition the cycle's time range contiguously and
in order: the first processed segment's `startTime` is 0, each segment's
`endTime` equals the next segment's `startTime`, the last segment's
`endTime` equals the computed `totalDuration`, and `totalDuration` equals
the sum of all resource durations. -/
theorem processConfiguration_partition (dd : GeoPoint → GeoPoint → ℚ) (cfg : List RouteSection)
    (hne : cfg ≠ []) (hfiles : ∀ s ∈ cfg, s.audioFiles ≠ [])
    (hdur : ∀ s ∈ cfg, ∀ f ∈ s.audioFiles, 0 < f.duration) :
    (((processConfiguration dd cfg).processedSections.map (fun s => s.startTime)).head? = some 0) ∧
    (∀ i, i + 1 < (processConfiguration dd cfg).processedSections.length →
      ((processConfiguration dd cfg).processedSections.map (fun s => s.endTime))[i]? =
        ((processConfiguration dd cfg).processedSections.map (fun s => s.startTime))[i + 1]?) ∧
    (((processConfiguration dd cfg).processedSections.map (fun s => s.endTime)).getLast? =
      some (processConfiguration dd cfg).totalDuration) ∧
    (processConfiguration dd cfg).totalDuration =
      ((cfg.flatMap (fun s => s.audioFiles)).map (fun f => f.duration)).sum := by
  have htimes := processSections_times dd cfg 0 0 0
  have hstart : (processConfiguration dd cfg).processedSections.map (fun s => s.startTime) =
      (timeBlocks 0 (cfg.map sectionDuration)).map Prod.fst := by
    show (processSections dd 0 0 0 cfg).map (fun s => s.startTime) = _
    rw [← htimes, List.map_map]
    rfl
  have hend : (processConfiguration dd cfg).processedSections.map (fun s => s.endTime) =
      (timeBlocks 0 (cfg.map sectionDuration)).map Prod.snd := by
    show (processSections dd 0 0 0 cfg).map (fun s => s.endTime) = _
    rw [← htimes, List.map_map]
    rfl
  have hlen : (processConfiguration dd cfg).processedSections.length =
      (cfg.map sectionDuration).length := by
    have := congrArg List.length htimes
    simpa [timeBlocks_length] using this
  have hdsne : cfg.map sectionDuration ≠ [] := by simpa using hne
  refine ⟨?_, ?_, ?_, ?_⟩
  · rw [hstart]
    exact timeBlocks_head_fst 0 (cfg.map sectionDuration) hdsne
  · intro i hi
    rw [hend, hstart]
    exact timeBlocks_adjacent (cfg.map sectionDuration) 0 i (by rw [← hlen]; exact hi)
  · rw [hend, timeBlocks_getLast_snd 0 (cfg.map sectionDuration) hdsne, zero_add,
      totalDuration_eq_sum]
  · rw [totalDuration_eq_sum, sum_sectionDuration_flat]

/-- C2: for every position `p` in `[0, totalDuration)`, exactly one
processed segment's half-open range `[startTime, endTime)` contains `p`
and `findSectionAtPosition` returns it, and exactly one audio resource of
that segment contains `p` and `findAudioFileAtPosition` returns it; a
boundary position belongs to the later segment because the ranges are
start-inclusive, end-exclusive (the 1799.9 / 1800.0 scenario is checked
in the witness). -/
theorem contextAt_exactly_one (dd : GeoPoint → GeoPoint → ℚ) (cfg : List RouteSection)
    (rm : RouteMappingState) (hrm : rm = processConfiguration dd cfg)
    (hdur : ∀ s ∈ cfg, ∀ f ∈ s.audioFiles, 0 < f.duration)
    (p : ℚ) (hp0 : 0 ≤ p) (hpt : p < rm.totalDuration) :
    rm.processedSections.countP (sectionContains p) = 1 ∧
    ∃ s, findSectionAtPosition rm p = some s ∧ sectionContains p s = true ∧
      s.audioFiles.countP (fileContains p) = 1 ∧
      ∃ f, findAudioFileAtPosition rm p (some s) = some f ∧ fileContains p f = true := by
  subst hrm
  have hnn := durations_nonneg cfg hdur
  have htot := totalDuration_eq_sum dd cfg
  have hcntsec : (processConfiguration dd cfg).processedSections.countP (sectionContains p) =
      (timeBlocks 0 (cfg.map sectionDuration)).countP (blockContains p) := by
    show (processSections dd 0 0 0 cfg).countP (sectionContains p) = _
    rw [← processSections_times dd cfg 0 0 0, List.countP_map]
    rfl
  have h1 : (timeBlocks 0 (cfg.map sectionDuration)).countP (blockContains p) = 1 :=
    timeBlocks_countP_one p (cfg.map sectionDuration) 0 hnn hp0
      (by rw [zero_add]; rw [htot] at hpt; exact hpt)
  have hcnt1 : (processConfiguration dd cfg).processedSections.countP (sectionContains p) = 1 := by
    rw [hcntsec, h1]
  refine ⟨hcnt1, ?_⟩
  obtain ⟨s, hfind, hcontains, hmem⟩ :=
    find?_exists_of_countP_pos (sectionContains p)
      (processConfiguration dd cfg).processedSections (by rw [hcnt1]; norm_num)
  obtain ⟨s0, hs0, hfileseq, hendeq⟩ := mem_processSections dd cfg 0 0 0 s hmem
  have hsb := (sectionContains_iff p s).1 hcontains
  have hnn2 : ∀ d ∈ s0.audioFiles.map (fun f => f.duration), 0 ≤ d := by
    intro d hd
    rw [List.mem_map] at hd
    obtain ⟨f, hf, rfl⟩ := hd
    exact le_of_lt (hdur s0 hs0 f hf)
  have hcntfile : s.audioFiles.countP (fileContains p) =
      (timeBlocks (s.startTime + 0) (s0.audioFiles.map (fun f => f.duration))).countP
        (blockContains p) := by
    rw [hfileseq, ← processAudioFiles_times s0.audioFiles s.startTime 0 0, List.countP_map]
    rfl
  have hsum : (s0.audioFiles.map (fun f => f.duration)).sum = sectionDuration s0 := rfl
  have hf1 : (timeBlocks (s.startTime + 0) (s0.audioFiles.map (fun f => f.duration))).countP
      (blockContains p) = 1 := by
    rw [add_zero]
    exact timeBlocks_countP_one p (s0.audioFiles.map (fun f => f.duration)) s.startTime hnn2
      hsb.1 (by rw [hsum, ← hendeq]; exact hsb.2)
  have hcf : s.audioFiles.countP (fileContains p) = 1 := by rw [hcntfile, hf1]
  obtain ⟨f, hffind, hfc, _⟩ :=
    find?_exists_of_countP_pos (fileContains p) s.audioFiles (by rw [hcf]; norm_num)
  exact ⟨s, hfind, hcontains, hcf, f, hffind, hfc⟩

/-- C8: for every position outside `[0, totalDuration)` the mapper finds
no containing section, and `getContextAtPosition` returns `none`
(JavaScript `null`) rather than a partially built context; the query is a
pure read of the processed state, which it therefore leaves unchanged. -/
theorem contextAt_out_of_range (dd : GeoPoint → GeoPoint → ℚ) (cfg : List RouteSection)
    (rm : RouteMappingState) (hrm : rm = processConfiguration dd cfg)
    (hdur : ∀ s ∈ cfg, ∀ f ∈ s.audioFiles, 0 < f.duration)
    (p : ℚ) (hp : p < 0 ∨ rm.totalDuration ≤ p) :
    findSectionAtPosition rm p = none ∧ getContextAtPosition dd rm p = none := by
  subst hrm
  have hnn := durations_nonneg cfg hdur
  have htot := totalDuration_eq_sum dd cfg
  have hcntsec : (processConfiguration dd cfg).processedSections.countP (sectionContains p) =
      (timeBlocks 0 (cfg.map sectionDuration)).countP (blockContains p) := by
    show (processSections dd 0 0 0 cfg).countP (sectionContains p) = _
    rw [← processSections_times dd cfg 0 0 0, List.countP_map]
    rfl
  have h0 : (timeBlocks 0 (cfg.map sectionDuration)).countP (blockContains p) = 0 :=
    timeBlocks_countP_zero p (cfg.map sectionDuration) 0 hnn
      (by rcases hp with h | h
          · exact Or.inl h
          · rw [htot] at h; exact Or.inr (by rw [zero_add]; exact h))
  have hnone : findSectionAtPosition (processConfiguration dd cfg) p = none := by
    rw [findSectionAtPosition, List.find?_eq_none]
    intro x hx
    have := List.countP_eq_zero.1 (by rw [hcntsec]; exact h0) x hx
    simpa using this
  exact ⟨hnone, by rw [getContextAtPosition, hnone]⟩

theorem cfg2_ne : cfg2 ≠ [] := by
  intro h
  simp [cfg2] at h

theorem cfg2_files : ∀ s ∈ cfg2, s.audioFiles ≠ [] := by
  intro s hs
  norm_num [cfg2] at hs
  rcases hs with rfl | rfl <;> simp

theorem cfg2_durpos : ∀ s ∈ cfg2, ∀ f ∈ s.audioFiles, 0 < f.duration := by
  intro s hs f hf
  norm_num [cfg2] at hs
  rcases hs with rfl | rfl <;> (simp at hf; subst hf; norm_num)

/-- C1 witness: the two-section 3600 s configuration satisfies the
hypotheses and hence the partition conclusions. -/
theorem processConfiguration_partition_witness :
    (((processConfiguration distAbs cfg2).processedSections.map (fun s => s.startTime)).head? = some 0) ∧
    (∀ i, i + 1 < (processConfiguration distAbs cfg2).processedSections.length →
      ((processConfiguration distAbs cfg2).processedSections.map (fun s => s.endTime))[i]? =
        ((processConfiguration distAbs cfg2).processedSections.map (fun s => s.startTime))[i + 1]?) ∧
    (((processConfiguration distAbs cfg2).processedSections.map (fun s => s.endTime)).getLast? =
      some (processConfiguration distAbs cfg2).totalDuration) ∧
    (processConfiguration distAbs cfg2).totalDuration =
      ((cfg2.flatMap (fun s => s.audioFiles)).map (fun f => f.duration)).sum :=
  processConfiguration_partition distAbs cfg2 cfg2_ne cfg2_files cfg2_durpos

/-- C2 witness: in the 3600 s two-section scenario, position 1799.9 lies
in segment 0 and position 1800.0 in segment 1 (start inclusive, end
exclusive), and the uniqueness conclusions hold at 1799.9. -/
theorem contextAt_exactly_one_witness :
    ((findSectionAtPosition rmC2 (17999 / 10)).map (fun s => s.index) = some 0) ∧
    ((findSectionAtPosition rmC2 1800).map (fun s => s.index) = some 1) ∧
    (rmC2.processedSections.countP (sectionContains (17999 / 10)) = 1 ∧
      ∃ s, findSectionAtPosition rmC2 (17999 / 10) = some s ∧
        sectionContains (17999 / 10) s = true ∧
        s.audioFiles.countP (fileContains (17999 / 10)) = 1 ∧
        ∃ f, findAudioFileAtPosition rmC2 (17999 / 10) (some s) = some f ∧
          fileContains (17999 / 10) f = true) :=
  ⟨by norm_num [rmC2, cfg2, processConfiguration, processSections, processAudioFiles,
     sectionDuration, combinePool, findSectionAtPosition, sectionContains, List.find?],
   by norm_num [rmC2, cfg2, processConfiguration, processSections, processAudioFiles,
     sectionDuration, combinePool, findSectionAtPosition, sectionContains, List.find?],
   contextAt_exactly_one distAbs cfg2 rmC2 rfl cfg2_durpos (17999 / 10) (by norm_num)
     (by norm_num [rmC2, cfg2, processConfiguration, sectionDuration])⟩

/-- C8 witness: querying at exactly `totalDuration` (= 3600) fails with
no context. -/
theorem contextAt_out_of_range_witness :
    findSectionAtPosition rmC2 3600 = none ∧ getContextAtPosition distAbs rmC2 3600 = none :=
  contextAt_out_of_range distAbs cfg2 rmC2 rfl cfg2_durpos 3600
    (Or.inr (by norm_num [rmC2, cfg2, processConfiguration, sectionDuration]))

/-- C3 counterexample: with `totalDuration = 3600`, locally-advanced
position 0.1 s and wall-derived expected position 3599.9 s — two points
on opposite sides of the loop boundary, circular distance 0.2 s — one
`checkSync` pass nevertheless calls `resync()`, because the guard
compares with plain `Math.abs` (3599.8 > 2), not the circular distance;
the claim says this pair must not trigger a resync. -/
theorem checkSync_boundary_cex :
    getCurrentPosition engC3 0 = 1 / 10 ∧
    calculatePositionFromTimeOfDay engC3 (35999 / 10) = 35999 / 10 ∧
    (checkSync engC3 0 (35999 / 10)).2 = true ∧
    circularDistance engC3.totalDuration (35999 / 10) (1 / 10) = 1 / 5 ∧
    ¬ ((1 : ℚ) / 5 > 2) := by
  have h : |(17999 : ℚ) / 5| = 17999 / 5 := abs_of_nonneg (by norm_num)
  refine ⟨?_, ?_, ?_, ?_, by norm_num⟩
  · norm_num [getCurrentPosition, engC3, jsMod]
  · norm_num [calculatePositionFromTimeOfDay, engC3, jsMod]
  · norm_num [checkSync, engC3, calculatePositionFromTimeOfDay, getCurrentPosition, jsMod,
      resync, h]
  · norm_num [circularDistance, engC3, abs_of_nonneg]

/-- C3 (amended): each drift-guard pass measures the divergence between
the freshly wall-derived expected position and the locally-advanced
position as the plain absolute difference and calls `resync()` exactly
when it exceeds 2 s (so near-boundary pairs, as in the counterexample,
do trigger a resync); a triggered pass re-derives the start position and
reference instant, an untriggered pass leaves the engine unchanged. -/
theorem checkSync_absolute_difference (e : TimelineEngine) (nowMs secondsSinceMidnight : ℚ) :
    ((checkSync e nowMs secondsSinceMidnight).2 = true ↔
      |calculatePositionFromTimeOfDay e secondsSinceMidnight - getCurrentPosition e nowMs| > 2) ∧
    ((checkSync e nowMs secondsSinceMidnight).2 = true →
      (checkSync e nowMs secondsSinceMidnight).1 = resync e nowMs secondsSinceMidnight) ∧
    ((checkSync e nowMs secondsSinceMidnight).2 = false →
      (checkSync e nowMs secondsSinceMidnight).1 = e) := by
  unfold checkSync
  by_cases h : |calculatePositionFromTimeOfDay e secondsSinceMidnight - getCurrentPosition e nowMs| > 2 <;>
    simp [h]

/-- C4 (code-bug evaluation): `rmC4` has a single section of two audio
files; at position 0 the active file is `a.mp3` (index 0, not the last of
its section), so by the claim the preload target must be `b.mp3` — but
`preloadNextFile` selects `a.mp3`: its same-section branch compares with
`context.section.audioFiles?.length - 1`, which is `NaN` because the
context's section object carries no `audioFiles` field, so it always
falls through to "first file of the next section", here wrapping to the
overall first file. -/
theorem preloadNextFile_wrap_eval :
    ((getContextAtPosition distAbs rmC4 0).map (fun c => c.audioInfo.file.url) = some ("a.mp3")) ∧
    ((getContextAtPosition distAbs rmC4 0).map (fun c => c.audioInfo.file.index) = some 0) ∧
    (rmC4.processedSections.map (fun s => s.audioFiles.length) = [2]) ∧
    ((preloadNextFile distAbs rmC4 0).map (fun f => f.url) = some ("a.mp3")) ∧
    ((preloadNextFile distAbs rmC4 0).map (fun f => f.url) ≠ some ("b.mp3")) := by
  have h4 : (preloadNextFile distAbs rmC4 0).map (fun f => f.url) = some ("a.mp3") := by
    norm_num [preloadNextFile, getContextAtPosition, findSectionAtPosition,
      findAudioFileAtPosition, rmC4, cfgC4, processConfiguration, processSections,
      processAudioFiles, sectionDuration, combinePool, sectionContains, fileContains,
      List.find?, preloadSameSectionGuard, getSectionByIndex, interpolateGeoPosition,
      pathDistances, pathDistancesAux, distAbs, findBracketAux]
  refine ⟨?_, ?_, ?_, h4, by rw [h4]; decide⟩ <;>
    norm_num [getContextAtPosition, findSectionAtPosition,
      findAudioFileAtPosition, rmC4, cfgC4, processConfiguration, processSections,
      processAudioFiles, sectionDuration, combinePool, sectionContains, fileContains,
      List.find?, interpolateGeoPosition,
      pathDistances, pathDistancesAux, distAbs, findBracketAux]

/-- C5: a sync pass at expected position `p` (audio loaded and playing,
context available) reloads fully via `startAtPosition` exactly when the
designated resource's url differs from the loaded one; with matching
identity it seeks the current decoder to the expected offset exactly
when the offset difference exceeds 0.5 s, and otherwise does nothing. -/
theorem syncToPosition_two_tier (dd : GeoPoint → GeoPoint → ℚ) (rm : RouteMappingState)
    (st : AudioEngineState) (p : ℚ) (hla : st.currentAudioLoaded = true)
    (hpl : st.isPlaying = true) (ctx : Context)
    (hctx : getContextAtPosition dd rm p = some ctx) :
    (some ctx.audioInfo.file.url ≠ st.currentFileUrl →
      syncToPosition dd rm st p = SyncAction.reload) ∧
    (some ctx.audioInfo.file.url = st.currentFileUrl →
      |ctx.audioInfo.offsetInFile - st.currentTime| > syncThreshold →
      syncToPosition dd rm st p = SyncAction.seek ctx.audioInfo.offsetInFile) ∧
    (some ctx.audioInfo.file.url = st.currentFileUrl →
      |ctx.audioInfo.offsetInFile - st.currentTime| ≤ syncThreshold →
      syncToPosition dd rm st p = SyncAction.noAction) := by
  refine ⟨?_, ?_, ?_⟩
  · intro hne
    simp [syncToPosition, hla, hpl, hctx, hne]
  · intro heq hdrift
    simp [syncToPosition, hla, hpl, hctx, heq, hdrift]
  · intro heq hdrift
    simp [syncToPosition, hla, hpl, hctx, heq, not_lt.2 hdrift]

/-- C5 witness: with `a.mp3` loaded, decoder at 1 s, expected offset 0 at
position 0 (drift 1 s > 0.5 s, same identity), the pass seeks without
reloading. -/
theorem syncToPosition_two_tier_witness :
    (some ctxC4.audioInfo.file.url = engC5.currentFileUrl) ∧
    (|ctxC4.audioInfo.offsetInFile - engC5.currentTime| > syncThreshold) ∧
    syncToPosition distAbs rmC4 engC5 0 = SyncAction.seek ctxC4.audioInfo.offsetInFile :=
  ⟨rfl, by norm_num [ctxC4, engC5, syncThreshold],
   (syncToPosition_two_tier distAbs rmC4 engC5 0 rfl rfl ctxC4
      (by norm_num [getContextAtPosition, findSectionAtPosition, findAudioFileAtPosition,
        rmC4, cfgC4, processConfiguration, processSections, processAudioFiles, sectionDuration,
        combinePool, sectionContains, fileContains, List.find?, interpolateGeoPosition,
        pathDistances, pathDistancesAux, distAbs, findBracketAux, ctxC4])).2.1
     rfl (by norm_num [ctxC4, engC5, syncThreshold])⟩

/-- C10: for every rational volume argument, including values outside
`[0, 1]`, `setVolume` stores `min(1, max(0, v))` as the master gain —
silent clamping, no rejection — so the stored gain always lies in
`[0, 1]`. -/
theorem setVolume_clamps (st : AudioEngineState) (g v : ℚ) (hg : st.masterGain = some g) :
    (setVolume st v).masterGain = some (min 1 (max 0 v)) ∧
    ∀ g2 : ℚ, (setVolume st v).masterGain = some g2 → 0 ≤ g2 ∧ g2 ≤ 1 := by
  have hmm : max 0 (min 1 v) = min 1 (max 0 v) := by
    rcases le_total v 0 with h | h
    · rw [min_eq_right (h.trans zero_le_one), max_eq_left h, min_eq_right zero_le_one]
    · rw [max_eq_right h, max_eq_right (le_min zero_le_one h)]
  have hset : (setVolume st v).masterGain = some (max 0 (min 1 v)) := by
    simp [setVolume, hg]
  refine ⟨by rw [hset, hmm], ?_⟩
  intro g2 hg2
  rw [hset] at hg2
  have hge : g2 = max 0 (min 1 v) := by injection hg2 with h; exact h.symm
  subst hge
  exact ⟨le_max_left 0 (min 1 v), max_le zero_le_one (min_le_left 1 v)⟩

/-- C10 witness: `setVolume 5` on a live gain node stores 1 (clamped into
range). -/
theorem setVolume_clamps_witness :
    (setVolume engC5 5).masterGain = some (min 1 (max 0 5)) ∧
    ∀ g2 : ℚ, (setVolume engC5 5).masterGain = some g2 → 0 ≤ g2 ∧ g2 ≤ 1 :=
  setVolume_clamps engC5 1 5 rfl

theorem get_cons_set_perm {α : Type} :
    ∀ (t : List α) (k : ℕ) (hk : k < t.length) (a : α),
    ((t.get ⟨k, hk⟩) :: t.set k a).Perm (a :: t) := by
  intro t
  induction t with
  | nil => intro k hk a; simp at hk
  | cons b t ih =>
    intro k hk a
    cases k with
    | zero =>
      show (b :: a :: t).Perm (a :: b :: t)
      exact List.Perm.swap a b t
    | succ m =>
      have hm : m < t.length := by simpa using hk
      show (t.get ⟨m, hm⟩ :: b :: t.set m a).Perm (a :: b :: t)
      exact ((List.Perm.swap b (t.get ⟨m, hm⟩) (t.set m a)).trans
        ((ih m hm a).cons b)).trans (List.Perm.swap a b t)

theorem swap_core_perm {α : Type} :
    ∀ (l : List α) (i j : ℕ) (x y : α), l[i]? = some x → l[j]? = some y →
    ((l.set i y).set j x).Perm l := by
  intro l
  induction l with
  | nil => intro i j x y hx hy; simp at hx
  | cons a t ih =>
    intro i j x y hx hy
    cases i with
    | zero =>
      rw [List.getElem?_cons_zero] at hx
      injection hx with hx
      subst hx
      cases j with
      | zero =>
        rw [List.getElem?_cons_zero] at hy
        injection hy with hy
        subst hy
        show (a :: t).Perm (a :: t)
        exact List.Perm.refl _
      | succ m =>
        rw [List.getElem?_cons_succ] at hy
        have hmlt : m < t.length := (List.getElem?_eq_some.1 hy).1
        have hyt : t.get ⟨m, hmlt⟩ = y := by
          rw [List.getElem?_eq_getElem hmlt] at hy
          injection hy
        show (y :: t.set m a).Perm (a :: t)
        rw [← hyt]
        exact get_cons_set_perm t m hmlt a
    | succ n =>
      rw [List.getElem?_cons_succ] at hx
      cases j with
      | zero =>
        rw [List.getElem?_cons_zero] at hy
        injection hy with hy
        subst hy
        have hnlt : n < t.length := (List.getElem?_eq_some.1 hx).1
        have hxt : t.get ⟨n, hnlt⟩ = x := by
          rw [List.getElem?_eq_getElem hnlt] at hx
          injection hx
        show (x :: t.set n a).Perm (a :: t)
        rw [← hxt]
        exact get_cons_set_perm t n hnlt a
      | succ m =>
        rw [List.getElem?_cons_succ] at hy
        show (a :: (t.set n y).set m x).Perm (a :: t)
        exact (ih n m x y hx hy).cons a

theorem listSwap_perm {α : Type} (l : List α) (i j : ℕ) : (listSwap l i j).Perm l := by
  unfold listSwap
  cases hx : l[i]? with
  | none =>
    cases hy : l[j]? with
    | none => exact List.Perm.refl l
    | some y => exact List.Perm.refl l
  | some x =>
    cases hy : l[j]? with
    | none => exact List.Perm.refl l
    | some y => exact swap_core_perm l i j x y hx hy

theorem shuffleGo_perm {α : Type} (sr : ℕ → ℕ) : ∀ (n : ℕ) (l : List α),
    (shuffleGo sr l n).Perm l := by
  intro n
  induction n with
  | zero => intro l; exact List.Perm.refl l
  | succ m ih =>
    intro l
    exact (ih _).trans (listSwap_perm l (m + 1) (sr (m + 1) % (m + 1 + 1)))

theorem shuffleArray_perm {α : Type} (sr : ℕ → ℕ) (l : List α) :
    (shuffleArray sr l).Perm l :=
  shuffleGo_perm sr (l.length - 1) l

theorem cons_eraseIdx_perm {α : Type} :
    ∀ (l : List α) (i : ℕ) (h : i < l.length), ((l.get ⟨i, h⟩) :: l.eraseIdx i).Perm l := by
  intro l
  induction l with
  | nil => intro i h; simp at h
  | cons a t ih =>
    intro i h
    cases i with
    | zero =>
      show (a :: t).Perm (a :: t)
      exact List.Perm.refl _
    | succ m =>
      have hm : m < t.length := by simpa using h
      show (t.get ⟨m, hm⟩ :: a :: t.eraseIdx m).Perm (a :: t)
      exact (List.Perm.swap a (t.get ⟨m, hm⟩) (t.eraseIdx m)).trans ((ih m hm).cons a)

theorem draw_step {A S : List MediaItem} (hA : A ≠ []) (r : ℕ) (sr : ℕ → ℕ) :
    ∃ (k : ℕ) (hk : k < A.length),
      pickNextMedia r sr ⟨A, S⟩ =
        (some (A.get ⟨k, hk⟩), ⟨A.eraseIdx k, S ++ [A.get ⟨k, hk⟩]⟩) := by
  have hlen : A.length ≠ 0 := by simpa [List.length_eq_zero] using hA
  have hk : r % A.length < A.length := Nat.mod_lt r (Nat.pos_of_ne_zero hlen)
  refine ⟨r % A.length, hk, ?_⟩
  unfold pickNextMedia
  simp only [hlen, if_neg, ite_false, List.getElem?_eq_getElem hk]
  rfl

theorem pickNextMedia_reset (r : ℕ) (sr : ℕ → ℕ) (S : List MediaItem) :
    pickNextMedia r sr ⟨[], S⟩ = pickNextMedia r sr ⟨shuffleArray sr S, []⟩ := by
  unfold pickNextMedia
  rcases h : shuffleArray sr S with _ | ⟨b, B⟩
  · simp [h, shuffleArray, shuffleGo]
  · simp [h]

theorem pickNextMedia_union_perm (r : ℕ) (sr : ℕ → ℕ) (st : SectionState) :
    ((pickNextMedia r sr st).2.available ++ (pickNextMedia r sr st).2.shown).Perm
      (st.available ++ st.shown) := by
  rcases st with ⟨A, S⟩
  rcases eq_or_ne A [] with rfl | hA
  · rw [pickNextMedia_reset]
    have hshuf := shuffleArray_perm sr S
    rcases eq_or_ne (shuffleArray sr S) [] with h2 | h2
    · have hS : S = [] := by
        rw [h2] at hshuf
        exact (hshuf.symm).eq_nil
      subst hS
      rw [h2]
      exact List.Perm.refl _
    · obtain ⟨k, hk, hpick⟩ := draw_step h2 r sr (S := [])
      rw [hpick]
      show ((shuffleArray sr S).eraseIdx k ++ ([] ++ [(shuffleArray sr S).get ⟨k, hk⟩])).Perm
        ([] ++ S)
      rw [List.nil_append, List.nil_append]
      exact ((List.perm_append_singleton _ _).trans
        (cons_eraseIdx_perm (shuffleArray sr S) k hk)).trans hshuf
  · obtain ⟨k, hk, hpick⟩ := draw_step hA r sr (S := S)
    rw [hpick]
    show (A.eraseIdx k ++ (S ++ [A.get ⟨k, hk⟩])).Perm (A ++ S)
    rw [← List.append_assoc]
    exact (List.perm_append_singleton _ _).trans
      ((cons_eraseIdx_perm A k hk).append_right S)

theorem runDraws_union_perm (P : List MediaItem) :
    ∀ (rs : List (ℕ × (ℕ → ℕ))) (st : SectionState),
    (st.available ++ st.shown).Perm P →
    ((runDraws st rs).2.available ++ (runDraws st rs).2.shown).Perm P := by
  intro rs
  induction rs with
  | nil => intro st h; exact h
  | cons p rest ih =>
    intro st h
    rcases p with ⟨r, sr⟩
    show ((runDraws (pickNextMedia r sr st).2 rest).2.available ++
      (runDraws (pickNextMedia r sr st).2 rest).2.shown).Perm P
    exact ih _ ((pickNextMedia_union_perm r sr st).trans h)

theorem runDraws_pass :
    ∀ (rs : List (ℕ × (ℕ → ℕ))) (A S : List MediaItem), A ≠ [] → rs.length = A.length →
    ∃ ds : List MediaItem, (runDraws ⟨A, S⟩ rs).1 = ds.map some ∧ ds.Perm A ∧
      (runDraws ⟨A, S⟩ rs).2 = ⟨[], S ++ ds⟩ := by
  intro rs
  induction rs with
  | nil =>
    intro A S hA hlen
    exact absurd (List.length_eq_zero.1 hlen.symm) hA
  | cons p rest ih =>
    rcases p with ⟨r, sr⟩
    intro A S hA hlen
    obtain ⟨k, hk, hpick⟩ := draw_step hA r sr (S := S)
    have hlerase : (A.eraseIdx k).length = A.length - 1 := by
      rw [List.length_eraseIdx]
      simp [hk]
    rcases eq_or_ne (A.eraseIdx k) [] with hAe | hAe
    · have hA1 : A.length = 1 := by
        have h0 : (A.eraseIdx k).length = 0 := by rw [hAe]; rfl
        omega
      have hrest : rest = [] := by
        have : rest.length = 0 := by
          have := hlen
          simp only [List.length_cons] at this
          omega
        exact List.length_eq_zero.1 this
      subst hrest
      refine ⟨[A.get ⟨k, hk⟩], ?_, ?_, ?_⟩
      · show (pickNextMedia r sr ⟨A, S⟩).1 ::
          (runDraws (pickNextMedia r sr ⟨A, S⟩).2 []).1 = [some (A.get ⟨k, hk⟩)]
        rw [hpick]
        rfl
      · have hperm := cons_eraseIdx_perm A k hk
        rw [hAe] at hperm
        exact hperm
      · show (runDraws (pickNextMedia r sr ⟨A, S⟩).2 []).2 = ⟨[], S ++ [A.get ⟨k, hk⟩]⟩
        rw [hpick, hAe]
        rfl
    · have hlen2 : rest.length = (A.eraseIdx k).length := by
        rw [hlerase]
        have := hlen
        simp only [List.length_cons] at this
        omega
      obtain ⟨ds, h1, h2, h3⟩ := ih (A.eraseIdx k) (S ++ [A.get ⟨k, hk⟩]) hAe hlen2
      refine ⟨A.get ⟨k, hk⟩ :: ds, ?_, ?_, ?_⟩
      · show (pickNextMedia r sr ⟨A, S⟩).1 ::
          (runDraws (pickNextMedia r sr ⟨A, S⟩).2 rest).1 = (A.get ⟨k, hk⟩ :: ds).map some
        rw [hpick, List.map_cons]
        exact congrArg _ h1
      · exact (h2.cons (A.get ⟨k, hk⟩)).trans (cons_eraseIdx_perm A k hk)
      · show (runDraws (pickNextMedia r sr ⟨A, S⟩).2 rest).2 = ⟨[], S ++ A.get ⟨k, hk⟩ :: ds⟩
        rw [hpick, h3]
        congr 1
        simp

/-- C6: starting one pass from a fresh state whose `available` is any
permutation `A` of the nonempty combined pool `P` (initialization and
every reset produce exactly such states) and `shown` empty: after any
sequence of draws the multiset union of `available` and `shown` still
equals `P`; `N = |P|` consecutive draws of the pass succeed and return
every pool entry exactly once, ending with `available` empty; and the
`(N+1)`-th draw happens only after the reset-and-reshuffle: it draws from
the reshuffled pool of the previous pass (so it may repeat any entry of
that pass, but none repeats within one pass). -/
theorem mediaPool_no_repeat (P A : List MediaItem) (hP : P ≠ []) (hA : A.Perm P)
    (rs : List (ℕ × (ℕ → ℕ))) :
    (((runDraws ⟨A, []⟩ rs).2.available ++ (runDraws ⟨A, []⟩ rs).2.shown).Perm P) ∧
    (rs.length = P.length →
      ∃ ds : List MediaItem, (runDraws ⟨A, []⟩ rs).1 = ds.map some ∧ ds.Perm P ∧
        (runDraws ⟨A, []⟩ rs).2.available = [] ∧ (runDraws ⟨A, []⟩ rs).2.shown = ds ∧
        ∀ (r : ℕ) (sr : ℕ → ℕ) (x : MediaItem),
          (pickNextMedia r sr (runDraws ⟨A, []⟩ rs).2).1 = some x →
          x ∈ shuffleArray sr ds ∧
            (pickNextMedia r sr (runDraws ⟨A, []⟩ rs).2).2.shown = [x]) := by
  constructor
  · exact runDraws_union_perm P rs ⟨A, []⟩ (by simpa using hA)
  · intro hlen
    have hAne : A ≠ [] := by
      intro h
      rw [h] at hA
      exact hP (hA.symm.eq_nil)
    have hlenA : rs.length = A.length := by rw [hlen, hA.length_eq]
    obtain ⟨ds, h1, h2, h3⟩ := runDraws_pass rs A [] hAne hlenA
    rw [List.nil_append] at h3
    refine ⟨ds, h1, h2.trans hA, by rw [h3], by rw [h3], ?_⟩
    intro r sr x hx
    rw [h3] at hx
    rw [pickNextMedia_reset] at hx
    rcases eq_or_ne (shuffleArray sr ds) [] with h4 | h4
    · rw [h4] at hx
      simp [pickNextMedia, shuffleArray, shuffleGo] at hx
    · obtain ⟨k, hk, hpick⟩ := draw_step h4 r sr (S := [])
      rw [hpick] at hx
      have hxe : (shuffleArray sr ds).get ⟨k, hk⟩ = x := by
        injection hx
      constructor
      · rw [← hxe]
        exact List.get_mem _ _ _
      · rw [h3, pickNextMedia_reset, hpick, ← hxe]
        rfl

/-- C6 witness: the two-entry pool drawn twice with concrete randomness,
instantiating the invariant and the exactly-once pass conclusions. -/
theorem mediaPool_no_repeat_witness :
    (((runDraws ⟨poolW, []⟩ drawsW).2.available ++
        (runDraws ⟨poolW, []⟩ drawsW).2.shown).Perm poolW) ∧
    (drawsW.length = poolW.length →
      ∃ ds : List MediaItem, (runDraws ⟨poolW, []⟩ drawsW).1 = ds.map some ∧ ds.Perm poolW ∧
        (runDraws ⟨poolW, []⟩ drawsW).2.available = [] ∧
        (runDraws ⟨poolW, []⟩ drawsW).2.shown = ds ∧
        ∀ (r : ℕ) (sr : ℕ → ℕ) (x : MediaItem),
          (pickNextMedia r sr (runDraws ⟨poolW, []⟩ drawsW).2).1 = some x →
          x ∈ shuffleArray sr ds ∧
            (pickNextMedia r sr (runDraws ⟨poolW, []⟩ drawsW).2).2.shown = [x]) :=
  mediaPool_no_repeat poolW poolW (by simp [poolW]) (List.Perm.refl poolW) drawsW

/-- C7 counterexample: `initializeSectionStates` copies the combined pool
in configuration order and consumes no randomness, whereas the claim
demands an independently shuffled copy: under shuffle randomness
`fun _ => 0` the section's own Fisher–Yates shuffle of the two-entry
pool produces the reversed order, which is not what initialization
stores. -/
theorem initializeSectionStates_unshuffled_cex :
    initializeSectionStates [secC7] =
      [("s1", ⟨[⟨"v1.mp4", "video"⟩, ⟨"i1.jpg", "image"⟩], []⟩)] ∧
    shuffleArray (fun _ => 0) secC7.mediaPoolCombined =
      [⟨"i1.jpg", "image"⟩, ⟨"v1.mp4", "video"⟩] ∧
    ([⟨"i1.jpg", "image"⟩, ⟨"v1.mp4", "video"⟩] : List MediaItem) ≠
      secC7.mediaPoolCombined := by
  refine ⟨rfl, rfl, ?_⟩
  decide

/-- C7 (amended): selector initialization sets each segment's `available`
list to an unshuffled copy of that segment's combined pool — its
configured videos then images, in configuration order — and its `shown`
list to empty; shuffling happens only when an exhausted pool is reset in
`pickNextMedia`. -/
theorem initializeSectionStates_copies (dd : GeoPoint → GeoPoint → ℚ) (cfg : List RouteSection) :
    (initializeSectionStates (getAllSections (processConfiguration dd cfg))).length =
      cfg.length ∧
    ∀ i : ℕ, (initializeSectionStates (getAllSections (processConfiguration dd cfg)))[i]? =
      (cfg[i]?).map (fun s0 => (s0.id, ⟨combinePool s0.mediaPool, []⟩)) := by
  have key : ∀ (ss : List RouteSection) (ct cd : ℚ) (j : ℕ),
      initializeSectionStates (processSections dd ct cd j ss) =
        ss.map (fun s0 => (s0.id, (⟨combinePool s0.mediaPool, []⟩ : SectionState))) := by
    intro ss
    induction ss with
    | nil => intro ct cd j; rfl
    | cons s ss ih =>
      intro ct cd j
      show (s.id, (⟨combinePool s.mediaPool, []⟩ : SectionState)) ::
          initializeSectionStates (processSections dd (ct + sectionDuration s)
            (cd + calculatePathDistance dd s.geoPath) (j + 1) ss) = _
      rw [ih, List.map_cons]
  have hps : getAllSections (processConfiguration dd cfg) = processSections dd 0 0 0 cfg := rfl
  constructor
  · rw [hps, key]
    simp
  · intro i
    rw [hps, key, List.getElem?_map]

theorem getLastD_eq_of_getLast? {l : List ℚ} {c : ℚ} (h : l.getLast? = some c) :
    l.getLastD 0 = c := by
  cases l with
  | nil => simp at h
  | cons a rest => simp [List.getLastD_eq_getLast?, h]

theorem findBracketAux_some (t : ℚ) :
    ∀ (l : List ℚ) (k : ℕ) (a : ℚ), l.head? = some a → a ≤ t →
    (∀ b, l.getLast? = some b → t < b) →
    ∃ j, findBracketAux t l k = some (k + j) ∧
      l.getD j 0 ≤ t ∧ t < l.getD (j + 1) 0 := by
  intro l
  induction l with
  | nil => intro k a h; simp at h
  | cons a0 rest ih =>
    intro k a hh ha hb
    rw [List.head?_cons] at hh
    injection hh with hh
    subst hh
    cases rest with
    | nil =>
      have := hb a0 rfl
      linarith
    | cons b rest2 =>
      by_cases hcase : t ≥ a0 ∧ t < b
      · refine ⟨0, ?_, by simpa using ha, by simpa using hcase.2⟩
        rw [findBracketAux, if_pos hcase]
        simp
      · have htb : b ≤ t := by
          rcases not_and_or.1 hcase with h | h
          · exact absurd ha (by simpa [ge_iff_le] using h)
          · exact not_lt.1 h
        have hlast : ∀ c, (b :: rest2).getLast? = some c → t < c := by
          intro c hc
          exact hb c (by rw [List.getLast?_cons_cons]; exact hc)
        obtain ⟨j, hj1, hj2, hj3⟩ := ih (k + 1) b rfl htb hlast
        refine ⟨j + 1, ?_, by simpa using hj2, by simpa using hj3⟩
        rw [findBracketAux, if_neg hcase, hj1]
        congr 1
        omega

/-- C9 counterexample: a two-point path of identical points — every edge
zero-length — has total cumulative distance 0 under any distance that,
like haversine, is zero between identical points (shown concretely for
`distAbs`); at progress 1/2 the bracket search finds nothing, the
initialization `segmentIndex = 0` is kept, and the interpolation divides
by the zero denominator `distances[1] - distances[0] = 0` (in JavaScript
`0/0 = NaN`, so the returned coordinates are not finite). -/
theorem interpolateGeo_zero_path_cex :
    distAbs (0, 0) (0, 0) = 0 ∧
    pathDistances distAbs [(0, 0), (0, 0)] = [0, 0] ∧
    findBracketAux ((1 / 2) * (pathDistances distAbs [(0, 0), (0, 0)]).getLastD 0)
      (pathDistances distAbs [(0, 0), (0, 0)]) 0 = none ∧
    interpDenominator distAbs [(0, 0), (0, 0)] (1 / 2) = 0 := by
  refine ⟨by norm_num [distAbs], ?_, ?_, ?_⟩
  · norm_num [pathDistances, pathDistancesAux, distAbs]
  · norm_num [pathDistances, pathDistancesAux, distAbs, findBracketAux]
  · norm_num [interpDenominator, pathDistances, pathDistancesAux, distAbs, findBracketAux]

/-- C9 (amended): whenever the path's total cumulative distance is
positive — that is, at least one edge has nonzero length; paths may still
contain consecutive duplicate points — interpolation at any progress
strictly between 0 and 1 finds a bracket whose cumulative distances
strictly increase: the division's denominator is positive, no division by
zero happens, and a zero-length edge is never selected as the
interpolation bracket. -/
theorem interpolateGeo_no_div_zero (dd : GeoPoint → GeoPoint → ℚ) (path : List GeoPoint)
    (progress : ℚ) (h0 : 0 < progress) (h1 : progress < 1)
    (htot : 0 < (pathDistances dd path).getLastD 0) :
    ∃ j, findBracketAux (progress * (pathDistances dd path).getLastD 0)
        (pathDistances dd path) 0 = some j ∧
      (pathDistances dd path).getD j 0 ≤ progress * (pathDistances dd path).getLastD 0 ∧
      progress * (pathDistances dd path).getLastD 0 < (pathDistances dd path).getD (j + 1) 0 ∧
      0 < interpDenominator dd path progress := by
  have hh : (pathDistances dd path).head? = some 0 := rfl
  have ht0 : (0 : ℚ) ≤ progress * (pathDistances dd path).getLastD 0 :=
    le_of_lt (mul_pos h0 htot)
  have htT : progress * (pathDistances dd path).getLastD 0 <
      (pathDistances dd path).getLastD 0 :=
    mul_lt_of_lt_one_left htot h1
  have hlast : ∀ c, (pathDistances dd path).getLast? = some c →
      progress * (pathDistances dd path).getLastD 0 < c := by
    intro c hc
    rw [← getLastD_eq_of_getLast? hc]
    exact htT
  obtain ⟨j, hj1, hj2, hj3⟩ :=
    findBracketAux_some (progress * (pathDistances dd path).getLastD 0)
      (pathDistances dd path) 0 0 hh ht0 hlast
  rw [Nat.zero_add] at hj1
  have hden : interpDenominator dd path progress =
      (pathDistances dd path).getD (j + 1) 0 - (pathDistances dd path).getD j 0 := by
    show (pathDistances dd path).getD
        (((findBracketAux (progress * (pathDistances dd path).getLastD 0)
          (pathDistances dd path) 0).getD 0) + 1) 0 -
      (pathDistances dd path).getD
        ((findBracketAux (progress * (pathDistances dd path).getLastD 0)
          (pathDistances dd path) 0).getD 0) 0 = _
    rw [hj1]
    rfl
  exact ⟨j, hj1, hj2, hj3, by rw [hden]; linarith⟩

/-- C9 witness: the straight two-point path `[(0,0), (0,2)]` (total
distance 2) at progress 1/2 selects bracket 0 with positive denominator. -/
theorem interpolateGeo_no_div_zero_witness :
    ∃ j, findBracketAux ((1 / 2) * (pathDistances distAbs [(0, 0), (0, 2)]).getLastD 0)
        (pathDistances distAbs [(0, 0), (0, 2)]) 0 = some j ∧
      (pathDistances distAbs [(0, 0), (0, 2)]).getD j 0 ≤
        (1 / 2) * (pathDistances distAbs [(0, 0), (0, 2)]).getLastD 0 ∧
      (1 / 2) * (pathDistances distAbs [(0, 0), (0, 2)]).getLastD 0 <
        (pathDistances distAbs [(0, 0), (0, 2)]).getD (j + 1) 0 ∧
      0 < interpDenominator distAbs [(0, 0), (0, 2)] (1 / 2) :=
  interpolateGeo_no_div_zero distAbs [(0, 0), (0, 2)] (1 / 2) (by norm_num) (by norm_num)
    (by norm_num [pathDistances, pathDistancesAux, distAbs])
